import Mathlib

/-!
Verification development for the smart-money backend.

Each section shallowly embeds one worker module of the Python source
(`backend/app/...`) into Lean: floats become rationals (`ℚ`), JSON values
become small inductive types or `Option` fields, database query results
become explicit function parameters, and the stateful workers become pure
state-transition functions.  Theorems at the end of the file settle the
spec claims against these embeddings.
-/

set_option maxRecDepth 100000

namespace Merit

/-- Embeds `services/merit.py::_clamp01`. -/
def clamp01 (x : ℚ) : ℚ := max 0 (min 1 x)

/-- Embeds `services/merit.py::_clamp_return` with the clamp bounds
(`settings.merit_return_clamp_min/max`) passed explicitly. -/
def clamp_return (cmin cmax x : ℚ) : ℚ := max cmin (min cmax x)

/-- Embeds `services/merit.py::_early_factor`.  The rank is the 1-based
first-seen rank among high-merit wallets on the same token. -/
def early_factor (rank : ℕ) : ℚ :=
  if rank ≤ 1 then 1 else if rank = 2 then 7/10 else 1/2

/-- Embeds `services/merit.py::_crowding_penalty`: `k` is the distinct
high-merit wallet count alerting on the token within ±10 minutes. -/
def crowding_penalty (k : ℕ) : ℚ :=
  if k ≤ 1 then 0 else clamp01 ((k - 1 : ℕ) * (15/100))

/-- Embeds `services/merit.py::_copycat_penalty_from_reason` composed with
the fallback branch of `_build_contributions`: when `tier_reason` carries a
parseable `copycat_burst_score` it is clamped to `[0,1]`; otherwise the
penalty is derived from the distinct wallet count `d` within ±5 seconds. -/
def copycat_penalty (burst_score : Option ℚ) (d : ℕ) : ℚ :=
  match burst_score with
  | some raw => clamp01 raw
  | none => clamp01 ((d - 1 : ℕ) * (12/100))

/-- Embeds the per-outcome weight computed in
`services/merit.py::_build_contributions`
(`weight = early_factor * (1 - crowding_penalty) * (1 - copycat_penalty)`). -/
def contribution_weight (rank k : ℕ) (burst_score : Option ℚ) (d : ℕ) : ℚ :=
  early_factor rank * (1 - crowding_penalty k) * (1 - copycat_penalty burst_score d)

/-- Embeds `contribution = net_return * weight` from
`services/merit.py::_build_contributions`. -/
def outcome_contribution (net_return : ℚ) (rank k : ℕ)
    (burst_score : Option ℚ) (d : ℕ) : ℚ :=
  net_return * contribution_weight rank k burst_score d

/-- Embeds `services/merit.py::_baseline_prior`:
`max(0, prior_weight) * merit_prior_constant`. -/
def baseline_prior (prior_weight prior_const : ℚ) : ℚ :=
  max 0 prior_weight * prior_const

/-- Embeds the score-update step of `services/merit.py::run_merit_update_once`
(lines 335-340): one decay step toward the prior baseline, then, when the
wallet has valid outcome samples, one decay step toward the clamped average
contribution. -/
def merit_update (decay prior_weight prior_const old_merit : ℚ)
    (sample_size : ℕ) (cmin cmax avg_contribution : ℚ) : ℚ :=
  let baseline := baseline_prior prior_weight prior_const
  let merit1 := old_merit * decay + baseline * (1 - decay)
  if 0 < sample_size then
    merit1 * decay + clamp_return cmin cmax avg_contribution * (1 - decay)
  else
    merit1

end Merit

namespace Profiler

/-- Embeds `worker_profiler.py::PositionState`. -/
structure PositionState where
  quantity : ℚ
  average_price : Option ℚ
deriving DecidableEq, Repr

/-- The empty position the trade fold starts from. -/
def emptyPosition : PositionState := ⟨0, none⟩

/-- Embeds the fields of a `Trade` row read by `worker_profiler.py::_apply_trade`
and `_effective_price`.  Absent / unparseable numeric columns are `none`
(Python `_safe_float` returning `None`). -/
structure TradeRow where
  side : Option String
  amount : Option ℚ
  price : Option ℚ
  usd_value : Option ℚ
deriving DecidableEq, Repr

/-- Embeds `worker_profiler.py::_normalize_side`. -/
def normalize_side (value : Option String) : Option String :=
  match value with
  | none => none
  | some v =>
      let t := v.trim.toLower
      if t = "buy" ∨ t = "sell" then some t else none

/-- Embeds `worker_profiler.py::_effective_price`: the trade price when
present, otherwise `usd_value / amount` when both are present and non-zero
(Python truthiness of floats). -/
def effective_price (t : TradeRow) : Option ℚ :=
  match t.price with
  | some p => some p
  | none =>
      match t.amount, t.usd_value with
      | some a, some u => if a ≠ 0 ∧ u ≠ 0 then some (u / a) else none
      | _, _ => none

/-- Embeds `worker_profiler.py::_apply_trade` (the per-trade fold step of the
full-refresh position accounting); the fold returns the position unchanged
when the normalized side or the amount is missing. -/
def apply_trade (pos : PositionState) (t : TradeRow) : PositionState :=
  match normalize_side t.side with
  | none => pos
  | some side =>
      match t.amount with
      | none => pos
      | some amount =>
          if side = "buy" then
            match effective_price t with
            | none => pos
            | some price =>
                let total_cost :=
                  pos.average_price.getD 0 * pos.quantity + amount * price
                let q := pos.quantity + amount
                ⟨q, if q ≠ 0 then some (total_cost / q) else none⟩
          else
            if pos.quantity ≤ 0 then pos
            else
              let sell_qty := min pos.quantity amount
              let q := pos.quantity - sell_qty
              if q ≤ 0 then ⟨0, none⟩ else ⟨q, pos.average_price⟩

/-- The Position data-model invariant from the spec:
`quantity ≥ 0` and `quantity = 0 ⇒ average_price = null`. -/
def PosInv (p : PositionState) : Prop :=
  0 ≤ p.quantity ∧ (p.quantity = 0 → p.average_price = none)

/-- Embeds the per-wallet write step of `worker_profiler.py::run_once`
(lines 211-243): an ignored wallet is skipped before any `Position` or
`WalletMetric` upsert; otherwise the positions are upserted together with
the wallet total value `Σ qty·avg`. -/
def wallet_refresh_writes (ignored : Bool)
    (positions : List (String × PositionState)) :
    Option (List (String × PositionState) × ℚ) :=
  if ignored then none
  else
    let total_value :=
      (positions.map (fun p => p.2.quantity * p.2.average_price.getD 0)).sum
    some (positions, total_value)

end Profiler

namespace Risk

/-- A scalar JSON value as handled by `worker_risk.py::_boolish`. -/
inductive JVal where
  | jnull
  | jbool (b : Bool)
  | jnum (q : ℚ)
  | jstr (s : String)
deriving DecidableEq, Repr

/-- Embeds `worker_risk.py::_boolish` applied to a possibly-missing payload
value (`dict.get` returning `None` for a missing key). -/
def boolish (value : Option JVal) : Bool :=
  match value with
  | none => false
  | some .jnull => false
  | some (.jbool b) => b
  | some (.jnum q) => q ≠ 0
  | some (.jstr s) => ["1", "true", "yes", "y"].contains s.trim.toLower

/-- One entry of the DexScreener `pairs` array, reduced to the only field
`worker_risk.py::_extract_dex_metrics` reads: `liquidity.usd` parsed by
`_safe_float` (`none` when `liquidity` is not a dict or `usd` is absent or
unparseable). -/
structure DexPair where
  liquidity_usd : Option ℚ
deriving DecidableEq, Repr

/-- Result of `worker_risk.py::_extract_dex_metrics`: both fields are
missing (`none`) when the payload carries no `pairs` list. -/
structure DexMetrics where
  pair_count : Option ℕ
  max_liquidity_usd : Option ℚ
deriving DecidableEq, Repr

/-- Maximum of a list of rationals, `none` on the empty list
(Python `max(liquidity_values) if liquidity_values else None`). -/
def maxQ (l : List ℚ) : Option ℚ :=
  l.foldl (fun acc x =>
    match acc with
    | none => some x
    | some m => some (max m x)) none

/-- Embeds `worker_risk.py::_extract_dex_metrics`: `pairs = none` models a
payload whose `pairs` key is absent or not a list. -/
def extract_dex_metrics (pairs : Option (List DexPair)) : DexMetrics :=
  match pairs with
  | none => ⟨none, none⟩
  | some ps => ⟨some ps.length, maxQ (ps.filterMap (·.liquidity_usd))⟩

/-- The GoPlus token-security fields read by
`worker_risk.py::_extract_goplus_metrics` / `_derive_flags`. -/
structure GoPlusMetrics where
  is_honeypot : Option JVal
  is_blacklisted : Option JVal
  is_proxy : Option JVal
  is_mintable : Option JVal
deriving DecidableEq, Repr

/-- Embeds `worker_risk.py::_derive_flags`. -/
def derive_flags (dm : DexMetrics) (gm : GoPlusMetrics) : List String :=
  (if boolish gm.is_honeypot then ["honeypot"] else []) ++
  (if boolish gm.is_blacklisted then ["blacklisted"] else []) ++
  (if boolish gm.is_proxy then ["proxy"] else []) ++
  (if boolish gm.is_mintable then ["mintable"] else []) ++
  (match dm.max_liquidity_usd with
   | some l => if l < 10000 then ["low_liquidity"] else []
   | none => [])

/-- Embeds `worker_risk.py::_calculate_tss`. -/
def calculate_tss (flags : List String) (dm : DexMetrics) : ℚ :=
  let start : ℚ := 100
  let afterPairs := if dm.pair_count = some 0 then start - 30 else start
  let afterFlags := afterPairs - 15 * flags.length
  max afterFlags 0

end Risk

namespace Alerts

/-- The per-chain NetEV constants from `config.py` used by
`worker_alerts.py` (`_chain_expected_move`, `_chain_min_usd_profit`,
`_chain_min_roi`, `netev_default_slippage`). -/
structure NetEvSettings where
  expected_move_eth : ℚ
  expected_move_bsc : ℚ
  min_usd_profit_eth : ℚ
  min_usd_profit_bsc : ℚ
  min_roi_eth : ℚ
  min_roi_bsc : ℚ
  default_slippage : ℚ
deriving DecidableEq, Repr

/-- The shipped defaults of the NetEV settings (`config.py` lines 73-81). -/
def defaultNetEvSettings : NetEvSettings :=
  { expected_move_eth := 8/100
    expected_move_bsc := 5/100
    min_usd_profit_eth := 20
    min_usd_profit_bsc := 6
    min_roi_eth := 8/100
    min_roi_bsc := 5/100
    default_slippage := 2/100 }

/-- Embeds `worker_alerts.py::_chain_expected_move`. -/
def chain_expected_move (cfg : NetEvSettings) (chain : String) : ℚ :=
  if chain = "bsc" then cfg.expected_move_bsc else cfg.expected_move_eth

/-- Embeds `worker_alerts.py::_chain_min_usd_profit`. -/
def chain_min_usd_profit (cfg : NetEvSettings) (chain : String) : ℚ :=
  if chain = "bsc" then cfg.min_usd_profit_bsc else cfg.min_usd_profit_eth

/-- Embeds `worker_alerts.py::_chain_min_roi`. -/
def chain_min_roi (cfg : NetEvSettings) (chain : String) : ℚ :=
  if chain = "bsc" then cfg.min_roi_bsc else cfg.min_roi_eth

/-- Embeds `worker_alerts.py::_derived_expected_move` given the database
average `avg` of `net_tradeable_return_est` over the valid outcomes for the
`(chain, token)` (`none` when no valid outcome exists): the average clamped
to `[0, 0.2]`. -/
def derived_expected_move (avg : Option ℚ) : Option ℚ :=
  avg.map (fun a => max 0 (min (2/10) a))

/-- Result of `worker_alerts.py::_netev_gate`:
`missingSize` is the `(False, {"reason": "missing_trade_size_usd"})` return,
`evaluated` carries `netev_usd`, `netev_roi` and the `passed` flag of the
structured payload. -/
inductive GateResult where
  | missingSize
  | evaluated (netev_usd netev_roi : ℚ) (passed : Bool)
deriving DecidableEq, Repr

/-- Embeds `worker_alerts.py::_netev_gate`.  Database and estimator inputs
are explicit: `usd_value` is `trade.usd_value`, `avg_outcome` the average
valid-outcome return for the token (`none` when there is none),
`est_slippage` the numeric `components.estimated_slippage` of the token-risk
row (`none` when absent or null), `gas_cost_usd` the gas estimator result. -/
def netev_gate (cfg : NetEvSettings) (chain : String) (usd_value : Option ℚ)
    (avg_outcome : Option ℚ) (est_slippage : Option ℚ) (gas_cost_usd : ℚ) :
    GateResult :=
  let size_usd := usd_value.getD 0
  if size_usd ≤ 0 then .missingSize
  else
    let expected_move :=
      (derived_expected_move avg_outcome).getD (chain_expected_move cfg chain)
    -- Python: `components.get("estimated_slippage", default) or default`
    -- (a zero or null value falls back to the default).
    let slippage :=
      match est_slippage with
      | none => cfg.default_slippage
      | some v => if v = 0 then cfg.default_slippage else v
    let gross_profit_usd := size_usd * expected_move
    let slippage_cost_usd := size_usd * max 0 slippage
    let netev_usd := gross_profit_usd - gas_cost_usd - slippage_cost_usd
    let netev_roi := netev_usd / size_usd
    let passed :=
      decide (chain_min_usd_profit cfg chain ≤ netev_usd) &&
      decide (chain_min_roi cfg chain ≤ netev_roi)
    .evaluated netev_usd netev_roi passed

/-- The NetEV formula exactly as the spec sentence states it
(`netev_usd = size_usd · expected_move − gas_cost_usd − size_usd · slippage`),
for comparison with the source's computation. -/
def specNetevUsd (size_usd expected_move gas_cost_usd slippage : ℚ) : ℚ :=
  size_usd * expected_move - gas_cost_usd - size_usd * slippage

/-- Alert types that `worker_alerts.py` / `worker_profiler.py` can create. -/
inductive AlertKind where
  | trade_conviction
  | pool_activity
  | wallet_tier
deriving DecidableEq, Repr

/-- The per-trade context of one iteration of the scan loop in
`worker_alerts.py::run_once`, with every database lookup the loop performs
reduced to its result. -/
structure TradeCtx where
  /-- `trade.wallet_address` is non-null. -/
  has_wallet : Bool
  /-- `trade.token_address` is non-null. -/
  has_token : Bool
  /-- a `TokenRisk` row exists for the trade's token. -/
  has_token_risk : Bool
  /-- `trade.pair_address` is set and `_watch_pair_active` holds for it. -/
  pair_active : Bool
  /-- `trade.usd_value` (`none` when the column is null). -/
  usd_value : Option ℚ
  /-- `is_wallet_ignored` for the trade's wallet. -/
  ignored : Bool
  /-- a `WalletMetric` row exists for the wallet. -/
  has_metric : Bool
  /-- a previous alert for `(chain, wallet, token)` is inside the 60-minute
  cooldown (checked identically in `_emit_pool_alert` and the main path). -/
  cooldown : Bool
  /-- the NetEV gate passes for this trade. -/
  netev_pass : Bool
deriving DecidableEq, Repr

/-- Python truthiness of `trade.usd_value or 0`: falsy iff the column is
null or exactly zero. -/
def usd_value_falsy (v : Option ℚ) : Bool :=
  match v with
  | none => true
  | some x => x = 0

/-- Embeds the alert decision of one iteration of the scan loop in
`worker_alerts.py::run_once` (lines 252-404): which alert, if any, the
iteration creates for the trade.  `_emit_pool_alert` succeeds exactly when
the cooldown is clear. -/
def alerts_decision (c : TradeCtx) : Option AlertKind :=
  if ¬ c.has_wallet ∨ ¬ c.has_token then none
  else if ¬ c.has_token_risk then none
  else if c.pair_active ∧ usd_value_falsy c.usd_value ∧ ¬ c.cooldown then
    some .pool_activity
  else if ¬ c.has_metric ∨ c.ignored then
    if c.pair_active ∧ ¬ c.cooldown then some .pool_activity else none
  else if c.cooldown then none
  else if c.netev_pass then some .trade_conviction
  else none

end Alerts

namespace RedisHelpers

/-- The externally visible effect of one call to
`utils/redis_helpers.py::retry_or_dead_letter`: the stream the fields are
republished to, the republished `retry_count`, and whether the original
message is acknowledged. -/
structure RetryEffect where
  target_stream : String
  new_retry_count : ℕ
  acked : Bool
deriving DecidableEq, Repr

/-- Embeds `utils/redis_helpers.py::retry_or_dead_letter`.  `current` is the
parsed `retry_count` field of the message (`none` when absent, defaulting
to 0). -/
def retry_or_dead_letter (stream : String) (current : Option ℕ)
    (max_retries : ℕ := 3) (dead_letter_stream : Option String := none) :
    RetryEffect :=
  let retry_count := current.getD 0 + 1
  let target := dead_letter_stream.getD (stream ++ ":dead")
  if max_retries < retry_count then
    ⟨target, retry_count, true⟩
  else
    ⟨stream, retry_count, true⟩

end RedisHelpers

namespace Autopilot

/-- The `WatchPair` columns read and written by the churn pass of
`worker_watchlist_autopilot.py::run_autopilot_once` (lines 225-241), for a
single chain.  Timestamps are rationals. -/
structure WatchPairRow where
  pair_address : String
  source : String
  priority : ℤ
  expires_at : ℚ
  last_seen : ℚ
deriving DecidableEq, Repr

/-- A pair is active iff `expires_at > now` (spec data-model invariant,
matching the churn query's `WatchPair.expires_at > now`). -/
def isActive (now : ℚ) (r : WatchPairRow) : Bool :=
  now < r.expires_at

/-- The churn query's row filter: autopilot-source and active. -/
def isActiveAutopilot (now : ℚ) (r : WatchPairRow) : Bool :=
  r.source == "autopilot" && isActive now r

/-- The churn query's ordering
(`priority desc, last_seen desc`). -/
def churnOrder (a b : WatchPairRow) : Prop :=
  b.priority < a.priority ∨ (a.priority = b.priority ∧ b.last_seen ≤ a.last_seen)

instance : DecidableRel churnOrder := fun a b => by
  unfold churnOrder; infer_instance

/-- The pair addresses demoted by the churn pass: the active
autopilot-source rows beyond `autopilot_max_pairs_per_chain` in query
order (`active[settings.autopilot_max_pairs_per_chain:]`). -/
def excessKeys (now : ℚ) (cap : ℕ) (rows : List WatchPairRow) : List String :=
  (((rows.filter (isActiveAutopilot now)).insertionSort churnOrder).drop cap).map
    (·.pair_address)

/-- The churn update applied to one row: rows in the excess get
`expires_at = now` and `priority = min(priority, 0)`; every other row is
untouched. -/
def churnStep (now : ℚ) (keys : List String) (r : WatchPairRow) : WatchPairRow :=
  if keys.contains r.pair_address then
    { r with expires_at := now, priority := min r.priority 0 }
  else r

/-- Embeds the effect of one churn pass over one chain's `WatchPair` rows
(`worker_watchlist_autopilot.py::run_autopilot_once`, lines 225-241). -/
def churn (now : ℚ) (cap : ℕ) (rows : List WatchPairRow) : List WatchPairRow :=
  rows.map (churnStep now (excessKeys now cap rows))

/-- Number of active pairs for the chain (any source). -/
def activeCount (now : ℚ) (rows : List WatchPairRow) : ℕ :=
  (rows.filter (isActive now)).length

/-- Number of active autopilot-source pairs for the chain. -/
def activeAutopilotCount (now : ℚ) (rows : List WatchPairRow) : ℕ :=
  (rows.filter (isActiveAutopilot now)).length

end Autopilot

namespace OutcomeEval

/-- The critical risk flags of `worker_outcome_evaluator.py`. -/
def CRITICAL_RISK_FLAGS : List String :=
  ["honeypot", "cannot_sell", "liquidity_floor_breach", "liquidity_pull"]

/-- One risk-history snapshot as read by
`worker_outcome_evaluator.py`.  `time` is the result of
`_parse_snapshot_time` (`none` when the timestamp is absent or
unparseable); the remaining fields are the JSON keys the exit-feasibility
helpers read. -/
structure Snapshot where
  time : Option ℚ
  /-- the first boolean among the `sellability`/`sellable`/`can_sell`
  keys (`_snapshot_sellable`), `none` when no such boolean is present. -/
  sellable_key : Option Bool
  /-- the `flags` entry (list of strings; other shapes normalize to the
  flag-name list as well). -/
  flags : List String
  /-- `max_suggested_size_usd` parsed by `_safe_float`. -/
  max_suggested_size_usd : Option ℚ
  /-- `components.max_suggested_size_usd` parsed by `_safe_float`. -/
  components_max_size : Option ℚ
deriving DecidableEq, Repr

/-- Embeds the critical-flag test of
`worker_outcome_evaluator.py::_normalize_flags` followed by the
intersection with `CRITICAL_RISK_FLAGS` in `_snapshot_sellable`. -/
def hasCriticalFlag (flags : List String) : Bool :=
  flags.any (fun f => CRITICAL_RISK_FLAGS.contains f.trim.toLower)

/-- Embeds `worker_outcome_evaluator.py::_snapshot_sellable`. -/
def snapshot_sellable (s : Snapshot) : Bool :=
  match s.sellable_key with
  | some b => b
  | none => ! hasCriticalFlag s.flags

/-- Embeds `worker_outcome_evaluator.py::_snapshot_max_size`. -/
def snapshot_max_size (s : Snapshot) : Option ℚ :=
  match s.max_suggested_size_usd with
  | some m => some m
  | none => s.components_max_size

/-- Embeds `worker_outcome_evaluator.py::_is_exit_feasible_snapshot`. -/
def is_exit_feasible_snapshot (s : Snapshot) : Bool :=
  match snapshot_max_size s with
  | none => false
  | some m => if m < 1000 then false else snapshot_sellable s

/-- The sort key order used by `_exit_feasible_peak`'s
`sorted(...)` over `(snapshot_time, is_feasible)` tuples: lexicographic
with `False < True`. -/
def parsedLe (a b : ℚ × Bool) : Prop :=
  a.1 < b.1 ∨ (a.1 = b.1 ∧ a.2 ≤ b.2)

instance : DecidableRel parsedLe := fun a b => by
  unfold parsedLe; infer_instance

instance : IsTotal (ℚ × Bool) parsedLe := by
  constructor
  intro a b
  unfold parsedLe
  rcases lt_trichotomy a.1 b.1 with h | h | h
  · exact Or.inl (Or.inl h)
  · rcases le_total a.2 b.2 with hb | hb
    · exact Or.inl (Or.inr ⟨h, hb⟩)
    · exact Or.inr (Or.inr ⟨h.symm, hb⟩)
  · exact Or.inr (Or.inl h)

instance : IsTrans (ℚ × Bool) parsedLe := by
  constructor
  intro a b c hab hbc
  unfold parsedLe at hab hbc ⊢
  rcases hab with h1 | ⟨h1, h1'⟩
  · rcases hbc with h2 | ⟨h2, _⟩
    · exact Or.inl (lt_trans h1 h2)
    · exact Or.inl (h2 ▸ h1)
  · rcases hbc with h2 | ⟨h2, h2'⟩
    · exact Or.inl (h1 ▸ h2)
    · exact Or.inr ⟨h1.trans h2, le_trans h1' h2'⟩

/-- The `(snapshot_time, is_feasible)` pairs of the in-window snapshots
that carry a parseable timestamp, in window order. -/
def parsedSnapshots (snaps : List Snapshot) : List (ℚ × Bool) :=
  snaps.filterMap (fun s => s.time.map (fun t => (t, is_exit_feasible_snapshot s)))

/-- `bisect.bisect_right` of a time into the sorted snapshot-time list:
on a sorted list this is the number of elements `≤ t`. -/
def bisectRight (times : List ℚ) (t : ℚ) : ℕ :=
  times.countP (fun x => decide (x ≤ t))

/-- One step of the max-gain loop of `_exit_feasible_peak`: the
accumulator holds `(max_gain, max_time)`; `bisect_right − 1` locates the
nearest prior snapshot, samples with no prior snapshot are skipped, and
the maximum is updated on a strictly larger gain. -/
def peakStep (parsed : List (ℚ × Bool)) (entry : ℚ)
    (acc : Option ℚ × Option ℚ) (pr : ℚ × ℚ) : Option ℚ × Option ℚ :=
  if bisectRight (parsed.map Prod.fst) pr.1 = 0 then acc
  else
    match parsed[bisectRight (parsed.map Prod.fst) pr.1 - 1]? with
    | none => acc
    | some (_, feasible) =>
        if feasible then
          match acc.1 with
          | none => (some (pr.2 / entry - 1), some pr.1)
          | some g =>
              if g < pr.2 / entry - 1 then (some (pr.2 / entry - 1), some pr.1)
              else acc
        else acc

/-- Embeds `worker_outcome_evaluator.py::_exit_feasible_peak`
(lines 261-306).  Prices are `(block_time, price)` pairs in window order;
the result is `(exit_feasible_peak_gain, exit_feasible_peak_time,
was_sellable_entire_window)`. -/
def exit_feasible_peak (prices : List (ℚ × ℚ)) (snaps : List Snapshot)
    (entry : ℚ) : Option ℚ × Option ℚ × Bool :=
  if prices = [] then (none, none, false)
  else if (parsedSnapshots snaps).insertionSort parsedLe = [] then
    (none, none, false)
  else if ! ((parsedSnapshots snaps).insertionSort parsedLe).any (·.2) then
    (none, none, false)
  else
    match
      prices.foldl
        (peakStep ((parsedSnapshots snaps).insertionSort parsedLe) entry)
        (none, none)
    with
    | (none, _) => (none, none, false)
    | (some g, max_time) => (some g, max_time, (parsedSnapshots snaps).all (·.2))

/-- Embeds the post-processing of `_exit_feasible_peak`'s result in
`worker_outcome_evaluator.py::_evaluate_alert_horizon` (lines 372-387):
when no sample is exit-feasible the tradeable peak is nulled and the
window is marked not fully sellable, otherwise the raw peak is kept. -/
def peaks_after_feasibility (raw_peak : Option ℚ) (_sellable_prior : Bool)
    (res : Option ℚ × Option ℚ × Bool) : Option ℚ × Option ℚ × Bool :=
  match res.1 with
  | none => (none, none, false)
  | some g => (raw_peak, some g, res.2.2)

/-- The spec's wording of an exit-feasible snapshot: sellable with
`max_suggested_size_usd ≥ 1000`. -/
def SpecFeasibleSnapshot (s : Snapshot) : Prop :=
  snapshot_sellable s = true ∧ ∃ m, snapshot_max_size s = some m ∧ 1000 ≤ m

/-- The spec's wording of an exit-feasible price sample at time `t`: its
nearest prior in-window snapshot exists, is sellable and has
`max_suggested_size_usd ≥ 1000`. -/
def SpecNearestFeasible (snaps : List Snapshot) (t : ℚ) : Prop :=
  ∃ s ∈ snaps, ∃ ts, s.time = some ts ∧ ts ≤ t ∧
    (∀ s' ∈ snaps, ∀ ts', s'.time = some ts' → ts' ≤ t → ts' ≤ ts) ∧
    SpecFeasibleSnapshot s

/-- The spec's characterization of `_exit_feasible_peak`'s gain component:
when some gain is returned it is the maximum of `price/entry − 1` over
exactly the exit-feasible samples; when none is returned no sample is
exit-feasible and the window is marked not fully sellable. -/
def ExitPeakSpec (prices : List (ℚ × ℚ)) (snaps : List Snapshot) (entry : ℚ)
    (out : Option ℚ × Option ℚ × Bool) : Prop :=
  (∀ g, out.1 = some g →
    (∃ pr ∈ prices, SpecNearestFeasible snaps pr.1 ∧ g = pr.2 / entry - 1) ∧
    (∀ pr ∈ prices, SpecNearestFeasible snaps pr.1 → pr.2 / entry - 1 ≤ g)) ∧
  (out.1 = none → ∀ pr ∈ prices, ¬ SpecNearestFeasible snaps pr.1) ∧
  (out.1 = none → out.2.2 = false)

end OutcomeEval

namespace Decoder

/-- 64-bit lane mask for the Keccak state. -/
def U64MASK : ℕ := 2 ^ 64 - 1

/-- Embeds `worker_decoder.py::_rotl` (64-bit left rotation). -/
def rotl (value shift : ℕ) : ℕ :=
  ((value <<< shift) ||| (value >>> (64 - shift))) &&& U64MASK

/-- The 24 round constants of `worker_decoder.py::_keccak_f`, written in
decimal (the source lists the same values in hex, 0x0000000000000001
through 0x8000000080008008). -/
def ROUND_CONSTANTS : List ℕ :=
  [1, 32898,
   9223372036854808714, 9223372039002292224,
   32907, 2147483649,
   9223372039002292353, 9223372036854808585,
   138, 136,
   2147516425, 2147483658,
   2147516555, 9223372036854775947,
   9223372036854808713, 9223372036854808579,
   9223372036854808578, 9223372036854775936,
   32778, 9223372039002259466,
   9223372039002292353, 9223372036854808704,
   2147483649, 9223372039002292232]

/-- The rotation-offset table of `worker_decoder.py::_keccak_f`. -/
def ROTATION : List (List ℕ) :=
  [[0, 36, 3, 41, 18],
   [1, 44, 10, 45, 2],
   [62, 6, 43, 15, 61],
   [28, 55, 25, 21, 56],
   [27, 20, 39, 8, 14]]

/-- State lane access (`state[i]`); the state always has 25 lanes. -/
def stGet (s : List ℕ) (i : ℕ) : ℕ := s.getD i 0

/-- One round of `worker_decoder.py::_keccak_f`: theta, rho+pi, chi, iota.
Python's `~b & b'` on 64-bit lanes is the masked complement. -/
def keccakRound (state : List ℕ) (rc : ℕ) : List ℕ :=
  let c := (List.range 5).map (fun x =>
    stGet state x ^^^ stGet state (x + 5) ^^^ stGet state (x + 10) ^^^
    stGet state (x + 15) ^^^ stGet state (x + 20))
  let d := (List.range 5).map (fun x =>
    stGet c ((x + 4) % 5) ^^^ rotl (stGet c ((x + 1) % 5)) 1)
  let state1 := (List.range 25).map (fun i => stGet state i ^^^ stGet d (i % 5))
  let b := (List.range 25).foldl (fun acc i =>
    let x := i % 5
    let y := i / 5
    acc.set (y + 5 * ((2 * x + 3 * y) % 5))
      (rotl (stGet state1 (x + 5 * y)) (stGet (ROTATION.getD x []) y)))
    (List.replicate 25 0)
  let state2 := (List.range 25).map (fun i =>
    let x := i % 5
    let y := i / 5
    stGet b (x + 5 * y) ^^^
      ((U64MASK ^^^ stGet b ((x + 1) % 5 + 5 * y)) &&& stGet b ((x + 2) % 5 + 5 * y)))
  state2.set 0 (stGet state2 0 ^^^ rc)

/-- Embeds `worker_decoder.py::_keccak_f` (24 rounds). -/
def keccakF (state : List ℕ) : List ℕ :=
  ROUND_CONSTANTS.foldl keccakRound state

/-- The Keccak padding of `worker_decoder.py::_keccak_256`: append `0x01`,
zero-fill until the length is `135 (mod 136)`, append `0x80`. -/
def pad (data : List ℕ) : List ℕ :=
  let n := data.length + 1
  let zeros := (135 - n % 136) % 136
  data ++ [0x01] ++ List.replicate zeros 0x00 ++ [0x80]

/-- `int.from_bytes(block, "little")` for an 8-byte lane. -/
def laneOfBytes (bytes : List ℕ) : ℕ :=
  bytes.foldr (fun b acc => b + 256 * acc) 0

/-- Absorb one 136-byte block into the state and permute. -/
def absorbBlock (state : List ℕ) (block : List ℕ) : List ℕ :=
  let absorbed := (List.range 25).map (fun i =>
    if i < 17 then stGet state i ^^^ laneOfBytes ((block.drop (i * 8)).take 8)
    else stGet state i)
  keccakF absorbed

/-- `lane.to_bytes(8, "little")`. -/
def laneBytes (x : ℕ) : List ℕ :=
  (List.range 8).map (fun j => (x >>> (8 * j)) &&& 255)

/-- Embeds `worker_decoder.py::_keccak_256` on a byte list: pad, absorb
the 136-byte blocks, take the first 32 output bytes. -/
def keccak_256 (data : List ℕ) : List ℕ :=
  let padded := pad data
  let blocks := (List.range (padded.length / 136)).map
    (fun k => (padded.drop (k * 136)).take 136)
  let final := blocks.foldl absorbBlock (List.replicate 25 0)
  ((List.range 4).map (fun i => laneBytes (stGet final i))).flatten

/-- Byte encoding of an ASCII signature string
(the `b"..."` literals of `worker_decoder.py`). -/
def asciiBytes (s : String) : List ℕ := s.data.map Char.toNat

/-- One lowercase hex digit. -/
def hexChar (n : ℕ) : Char :=
  if n < 10 then Char.ofNat (48 + n) else Char.ofNat (87 + n)

/-- `bytes.hex()`: lowercase hex encoding of a byte list. -/
def bytesHex (bs : List ℕ) : String :=
  String.mk (bs.foldr (fun b acc => hexChar (b / 16) :: hexChar (b % 16) :: acc) [])

/-- The topic-constant construction of `worker_decoder.py` (lines 142-144):
`f"0x{_keccak_256(signature).hex()}"`. -/
def eventTopic (signature : String) : String :=
  "0x" ++ bytesHex (keccak_256 (asciiBytes signature))

/-- `worker_decoder.py::UNISWAP_V2_SWAP_SIGNATURE`. -/
def UNISWAP_V2_SWAP_SIGNATURE : String :=
  "Swap(address,uint256,uint256,uint256,uint256,address)"

/-- `worker_decoder.py::UNISWAP_V2_SYNC_SIGNATURE`. -/
def UNISWAP_V2_SYNC_SIGNATURE : String := "Sync(uint112,uint112)"

/-- `worker_decoder.py::UNISWAP_V3_SWAP_SIGNATURE`. -/
def UNISWAP_V3_SWAP_SIGNATURE : String :=
  "Swap(address,address,int256,int256,uint160,uint128,int24)"

end Decoder

namespace OutcomeEval

/-- The nearest-prior-snapshot feasibility test performed for one price
sample inside the loop of `_exit_feasible_peak`: locate the last parsed
snapshot at or before the sample time via `bisect_right − 1` and read its
feasibility; a sample with no prior snapshot is not exit-feasible. -/
def nearestFeasible (parsed : List (ℚ × Bool)) (t : ℚ) : Bool :=
  let c := bisectRight (parsed.map Prod.fst) t
  if c = 0 then false
  else
    match parsed[c - 1]? with
    | none => false
    | some (_, feasible) => feasible

end OutcomeEval

/-- A concrete buy trade used by the C8 witness. -/
def buyTrade : Profiler.TradeRow := ⟨some "buy", some 2, some 3, none⟩

/-- The price window of the spec's "exit-feasible peak suppresses trap"
scenario: prices 1.05, 1.60, 1.80, 1.20 at times 1..4 with entry 1.0. -/
def examplePrices : List (ℚ × ℚ) :=
  [(1, 21/20), (2, 8/5), (3, 9/5), (4, 6/5)]

/-- The risk snapshots of the same scenario: only the first snapshot is
sellable with `max_suggested_size_usd ≥ 1000`. -/
def exampleSnapshots : List OutcomeEval.Snapshot :=
  [⟨some 1, some true, [], some 2000, none⟩,
   ⟨some 2, some true, [], some 500, none⟩,
   ⟨some 3, some true, [], some 500, none⟩,
   ⟨some 4, some true, [], some 500, none⟩]

/-! ## Claim theorems -/

section MeritClaims

lemma early_factor_eq_rank_cases (rank : ℕ) (h : 1 ≤ rank) :
    Merit.early_factor rank =
      (if rank = 1 then 1 else if rank = 2 then 7/10 else 1/2) := by
  unfold Merit.early_factor
  rcases Nat.lt_or_ge rank 2 with h2 | h2
  · interval_cases rank <;> norm_num
  · have hne1 : rank ≠ 1 := by omega
    have hle : ¬ rank ≤ 1 := by omega
    simp [hle, hne1]

lemma crowding_penalty_eq (k : ℕ) :
    Merit.crowding_penalty k = Merit.clamp01 (((k : ℚ) - 1) * (15/100)) := by
  unfold Merit.crowding_penalty
  rcases Nat.lt_or_ge k 2 with h2 | h2
  · interval_cases k <;> simp [Merit.clamp01] <;> norm_num
  · have hle : ¬ k ≤ 1 := by omega
    have hcast : ((k - 1 : ℕ) : ℚ) = (k : ℚ) - 1 := by
      have : (1 : ℕ) ≤ k := by omega
      push_cast [this]; ring
    simp [hle, hcast]

lemma copycat_penalty_none_eq (d : ℕ) :
    Merit.copycat_penalty none d =
      Merit.clamp01 (max ((d : ℚ) - 1) 0 * (12/100)) := by
  unfold Merit.copycat_penalty
  rcases Nat.eq_zero_or_pos d with hd | hd
  · subst hd; simp [Merit.clamp01]
  · have hcast : ((d - 1 : ℕ) : ℚ) = (d : ℚ) - 1 := by push_cast [hd]; ring
    have hmax : max ((d : ℚ) - 1) 0 = (d : ℚ) - 1 := by
      apply max_eq_left
      have : (1 : ℚ) ≤ (d : ℚ) := by exact_mod_cast hd
      linarith
    rw [hcast, hmax]

/-- **C3.** Merit per-outcome contribution weighting: for every valid
outcome the contribution equals
`net_return · earliness · (1 − crowding) · (1 − copycat)`, where earliness
is 1.0 for first-seen rank 1, 0.7 for rank 2 and 0.5 otherwise, the
crowding penalty is `clamp01((k − 1)·0.15)` for the ±10-minute high-merit
wallet count `k`, and the copycat penalty is the clamped
`tier_reason.copycat_burst_score` when present and otherwise
`clamp01(max(d − 1, 0)·0.12)` for the ±5-second distinct wallet count `d`. -/
theorem merit_contribution_formula (net : ℚ) (rank k : ℕ) (burst : Option ℚ)
    (d : ℕ) (hrank : 1 ≤ rank) :
    Merit.outcome_contribution net rank k burst d =
      net * ((if rank = 1 then 1 else if rank = 2 then 7/10 else 1/2)
        * (1 - Merit.clamp01 (((k : ℚ) - 1) * (15/100)))
        * (1 - (match burst with
                | some raw => Merit.clamp01 raw
                | none => Merit.clamp01 (max ((d : ℚ) - 1) 0 * (12/100))))) := by
  unfold Merit.outcome_contribution Merit.contribution_weight
  rw [early_factor_eq_rank_cases rank hrank, crowding_penalty_eq k]
  cases burst with
  | none => rw [copycat_penalty_none_eq d]
  | some raw => rfl

/-- Witness for C3 at rank 2, crowding count 3, derived copycat count 2. -/
theorem merit_contribution_formula_witness :
    Merit.outcome_contribution (2/10) 2 3 none 2 =
      (2/10) * ((if (2:ℕ) = 1 then 1 else if (2:ℕ) = 2 then 7/10 else 1/2)
        * (1 - Merit.clamp01 ((((3:ℕ) : ℚ) - 1) * (15/100)))
        * (1 - Merit.clamp01 (max (((2:ℕ) : ℚ) - 1) 0 * (12/100)))) :=
  merit_contribution_formula (2/10) 2 3 none 2 (by norm_num)

/-- **C4.** Merit score-update monotonicity: with fixed previous score,
prior weight, decay in `(0,1)` and clamp bounds, and a positive sample
size, one update cycle is monotone non-decreasing in `avg_contribution`. -/
theorem merit_update_monotone (decay pw pc old : ℚ) (n : ℕ) (cmin cmax a b : ℚ)
    (hd0 : 0 < decay) (hd1 : decay < 1) (hn : 0 < n) (hab : a ≤ b) :
    Merit.merit_update decay pw pc old n cmin cmax a ≤
      Merit.merit_update decay pw pc old n cmin cmax b := by
  unfold Merit.merit_update
  simp only [if_pos hn]
  have hcl : Merit.clamp_return cmin cmax a ≤ Merit.clamp_return cmin cmax b := by
    unfold Merit.clamp_return
    exact max_le_max le_rfl (min_le_min le_rfl hab)
  have h1 : (0 : ℚ) ≤ 1 - decay := by linarith
  have := mul_le_mul_of_nonneg_right hcl h1
  linarith

/-- Witness for C4 at the default decay 0.85 and clamps ±0.5. -/
theorem merit_update_monotone_witness :
    Merit.merit_update (85/100) 1 (15/1000) 0 1 (-1/2) (1/2) (1/10) ≤
      Merit.merit_update (85/100) 1 (15/1000) 0 1 (-1/2) (1/2) (3/10) :=
  merit_update_monotone (85/100) 1 (15/1000) 0 1 (-1/2) (1/2) (1/10) (3/10)
    (by norm_num) (by norm_num) (by norm_num) (by norm_num)

end MeritClaims

section DecoderClaims

/-- **C7.** Keccak round-trip: the decoder's built-in `_keccak_256` maps the
three canonical event-signature byte strings to exactly the hard-coded
Uniswap v2 swap, v2 sync and v3 swap topics. -/
theorem decoder_keccak_topics :
    Decoder.eventTopic Decoder.UNISWAP_V2_SWAP_SIGNATURE =
      "0xd78ad95fa46c994b6551d0da85fc275fe613ce37657fb8d5e3d130840159d822" ∧
    Decoder.eventTopic Decoder.UNISWAP_V2_SYNC_SIGNATURE =
      "0x1c411e9a96e071241c2f21f7726b17ae89e3cab4c78be50e062b03a9fffbbad1" ∧
    Decoder.eventTopic Decoder.UNISWAP_V3_SWAP_SIGNATURE =
      "0xc42079f94a6350d7e6235f29174924f928cc2ac818eb64fed8004e115fbcca67" := by
  refine ⟨?_, ?_, ?_⟩ <;> decide

end DecoderClaims

section RedisClaims

/-- **C10.** Retry/dead-letter helper: one invocation with current retry
count `r` (0 when the field is absent) republishes the fields with
`retry_count = r + 1` to the original stream when `r + 1 ≤ max_retries`,
otherwise appends them to the dead-letter stream, and acknowledges the
original message in both cases. -/
theorem retry_or_dead_letter_spec (stream : String) (current : Option ℕ)
    (max_retries : ℕ) (dead_letter_stream : Option String) :
    (RedisHelpers.retry_or_dead_letter stream current max_retries
        dead_letter_stream).new_retry_count = current.getD 0 + 1 ∧
    (RedisHelpers.retry_or_dead_letter stream current max_retries
        dead_letter_stream).target_stream =
      (if current.getD 0 + 1 ≤ max_retries then stream
       else dead_letter_stream.getD (stream ++ ":dead")) ∧
    (RedisHelpers.retry_or_dead_letter stream current max_retries
        dead_letter_stream).acked = true := by
  unfold RedisHelpers.retry_or_dead_letter
  rcases Nat.lt_or_ge max_retries (current.getD 0 + 1) with h | h
  · have : ¬ current.getD 0 + 1 ≤ max_retries := by omega
    simp [h, this]
  · have hnot : ¬ max_retries < current.getD 0 + 1 := by omega
    simp [hnot, h]

end RedisClaims

section RiskClaims

/-- **C9.** TSS computation: the token security score equals 100, minus 30
when the DexScreener metrics report zero pairs, minus 15 per derived flag
(`low_liquidity` being raised exactly when the maximum pair liquidity is
known and below $10,000), floored at 0 — hence the stored score always
lies in `[0, 100]`. -/
theorem tss_formula_and_bounds (dm : Risk.DexMetrics) (gm : Risk.GoPlusMetrics) :
    Risk.calculate_tss (Risk.derive_flags dm gm) dm =
      max ((100 : ℚ) - (if dm.pair_count = some 0 then (30 : ℚ) else 0)
        - 15 * ((Risk.derive_flags dm gm).length : ℚ)) 0 ∧
    ("low_liquidity" ∈ Risk.derive_flags dm gm ↔
      ∃ l, dm.max_liquidity_usd = some l ∧ l < 10000) ∧
    0 ≤ Risk.calculate_tss (Risk.derive_flags dm gm) dm ∧
    Risk.calculate_tss (Risk.derive_flags dm gm) dm ≤ 100 := by
  refine ⟨?_, ?_, ?_, ?_⟩
  · unfold Risk.calculate_tss
    split <;> norm_num
  · unfold Risk.derive_flags
    cases hml : dm.max_liquidity_usd with
    | none => split_ifs <;> simp
    | some l =>
        by_cases hl : l < 10000
        · split_ifs <;> simp [hl]
        · split_ifs <;> simp [hl]
  · unfold Risk.calculate_tss
    exact le_max_right _ _
  · unfold Risk.calculate_tss
    have hlen : (0 : ℚ) ≤ 15 * (Risk.derive_flags dm gm).length := by positivity
    apply max_le _ (by norm_num)
    split <;> linarith

end RiskClaims

section ProfilerClaims

lemma normalize_side_cases (v : Option String) (s : String)
    (h : Profiler.normalize_side v = some s) : s = "buy" ∨ s = "sell" := by
  unfold Profiler.normalize_side at h
  cases v with
  | none => cases h
  | some w =>
      dsimp only at h
      split_ifs at h with hcond
      · injection h with h'
        subst h'
        exact hcond

lemma apply_trade_no_side (pos : Profiler.PositionState) (t : Profiler.TradeRow)
    (hs : Profiler.normalize_side t.side = none) :
    Profiler.apply_trade pos t = pos := by
  unfold Profiler.apply_trade
  rw [hs]

lemma apply_trade_no_amount (pos : Profiler.PositionState) (t : Profiler.TradeRow)
    (s : String) (hs : Profiler.normalize_side t.side = some s)
    (ha : t.amount = none) :
    Profiler.apply_trade pos t = pos := by
  unfold Profiler.apply_trade
  rw [hs, ha]

lemma apply_trade_buy_no_price (pos : Profiler.PositionState)
    (t : Profiler.TradeRow) (a : ℚ)
    (hs : Profiler.normalize_side t.side = some "buy") (ha : t.amount = some a)
    (hp : Profiler.effective_price t = none) :
    Profiler.apply_trade pos t = pos := by
  unfold Profiler.apply_trade
  rw [hs, ha, hp]
  rfl

lemma apply_trade_buy_eq (pos : Profiler.PositionState) (t : Profiler.TradeRow)
    (a price : ℚ)
    (hs : Profiler.normalize_side t.side = some "buy") (ha : t.amount = some a)
    (hp : Profiler.effective_price t = some price) :
    Profiler.apply_trade pos t =
      ⟨pos.quantity + a,
       if pos.quantity + a ≠ 0 then
         some ((pos.average_price.getD 0 * pos.quantity + a * price) /
           (pos.quantity + a))
       else none⟩ := by
  unfold Profiler.apply_trade
  rw [hs, ha, hp]
  rfl

lemma apply_trade_sell_eq (pos : Profiler.PositionState) (t : Profiler.TradeRow)
    (a : ℚ)
    (hs : Profiler.normalize_side t.side = some "sell") (ha : t.amount = some a) :
    Profiler.apply_trade pos t =
      (if pos.quantity ≤ 0 then pos
       else if pos.quantity - min pos.quantity a ≤ 0 then ⟨0, none⟩
       else ⟨pos.quantity - min pos.quantity a, pos.average_price⟩) := by
  unfold Profiler.apply_trade
  rw [hs, ha]
  rfl

/-- **C8.** Position-fold invariant: the profiler's per-trade fold preserves
`quantity ≥ 0` and `quantity = 0 ⇒ average_price = null` (for the
non-negative trade amounts of the data model); a buy of amount `a` at
effective price `p` sets the average to `(avg·qty + a·p)/(qty + a)` and the
quantity to `qty + a`, and a sell of amount `a` decrements the quantity by
`min(qty, a)`, clearing the average when the quantity reaches 0. -/
theorem position_fold_spec (pos : Profiler.PositionState) (t : Profiler.TradeRow)
    (hinv : Profiler.PosInv pos)
    (hamt : ∀ a, t.amount = some a → 0 ≤ a) :
    Profiler.PosInv (Profiler.apply_trade pos t) ∧
    (∀ a p, Profiler.normalize_side t.side = some "buy" → t.amount = some a →
      Profiler.effective_price t = some p → 0 < pos.quantity + a →
      Profiler.apply_trade pos t =
        ⟨pos.quantity + a,
         some ((pos.average_price.getD 0 * pos.quantity + a * p) /
           (pos.quantity + a))⟩) ∧
    (∀ a, Profiler.normalize_side t.side = some "sell" → t.amount = some a →
      (Profiler.apply_trade pos t).quantity = pos.quantity - min pos.quantity a ∧
      ((Profiler.apply_trade pos t).quantity = 0 →
        (Profiler.apply_trade pos t).average_price = none)) := by
  rcases hinv with ⟨hq, hz⟩
  refine ⟨?_, ?_, ?_⟩
  · cases hs : Profiler.normalize_side t.side with
    | none => rw [apply_trade_no_side pos t hs]; exact ⟨hq, hz⟩
    | some side =>
      cases ha : t.amount with
      | none => rw [apply_trade_no_amount pos t side hs ha]; exact ⟨hq, hz⟩
      | some a =>
        have ha0 : 0 ≤ a := hamt a ha
        rcases normalize_side_cases t.side side hs with hb | hb
        · subst hb
          cases hp : Profiler.effective_price t with
          | none => rw [apply_trade_buy_no_price pos t a hs ha hp]; exact ⟨hq, hz⟩
          | some price =>
            rw [apply_trade_buy_eq pos t a price hs ha hp]
            constructor
            · dsimp only
              linarith
            · intro h0
              dsimp only at h0 ⊢
              simp [h0]
        · subst hb
          rw [apply_trade_sell_eq pos t a hs ha]
          split_ifs with hq0 hle
          · exact ⟨hq, hz⟩
          · exact ⟨le_refl _, fun _ => rfl⟩
          · constructor
            · have := min_le_left pos.quantity a
              dsimp only
              linarith
            · intro h0
              exact absurd (le_of_eq h0) hle
  · intro a p hsbuy hamt' hp hqa
    rw [apply_trade_buy_eq pos t a p hsbuy hamt' hp, if_pos hqa.ne']
  · intro a hssell ha
    have ha0 : 0 ≤ a := hamt a ha
    rw [apply_trade_sell_eq pos t a hssell ha]
    split_ifs with hq0 hle
    · have hqeq : pos.quantity = 0 := le_antisymm hq0 hq
      refine ⟨?_, fun h0 => hz h0⟩
      rw [hqeq]
      simp [min_eq_left ha0]
    · have hge : 0 ≤ pos.quantity - min pos.quantity a := by
        have := min_le_left pos.quantity a
        linarith
      refine ⟨?_, fun _ => rfl⟩
      dsimp only
      exact (le_antisymm hle hge).symm
    · exact ⟨rfl, fun h0 => absurd (le_of_eq h0) hle⟩

/-- Witness for C8: a buy of 2 units at price 3 from the empty position. -/
theorem position_fold_spec_witness :
    Profiler.PosInv (Profiler.apply_trade Profiler.emptyPosition buyTrade) :=
  (position_fold_spec Profiler.emptyPosition buyTrade
    ⟨le_refl 0, fun _ => rfl⟩
    (by intro a h; cases h; norm_num)).1

end ProfilerClaims

section AlertsClaims

/-- **C1 (counterexample).** The claim's NetEV formula
`netev_usd = size·move − gas − size·slippage` with the slippage taken
straight from `components.estimated_slippage` fails on the code: with
`usd_value = 100`, no valid outcomes (ETH default move 0.08),
`estimated_slippage = −1` and gas cost 5, the claim's formula yields
`netev_usd = 103 ≥ 20` and `netev_roi = 1.03 ≥ 0.08`, so the claim predicts
a pass, but the gate clamps the slippage cost at 0 and fails with
`netev_usd = 3 < 20`. -/
theorem netev_gate_negative_slippage_cex :
    Alerts.netev_gate Alerts.defaultNetEvSettings "ethereum" (some 100) none
        (some (-1)) 5 = .evaluated 3 (3/100) false ∧
    Alerts.chain_min_usd_profit Alerts.defaultNetEvSettings "ethereum" ≤
      Alerts.specNetevUsd 100 (8/100) 5 (-1) ∧
    Alerts.chain_min_roi Alerts.defaultNetEvSettings "ethereum" ≤
      Alerts.specNetevUsd 100 (8/100) 5 (-1) / 100 := by
  refine ⟨?_, ?_, ?_⟩
  · norm_num +decide [Alerts.netev_gate, Alerts.derived_expected_move,
      Alerts.chain_expected_move, Alerts.chain_min_usd_profit,
      Alerts.chain_min_roi, Alerts.defaultNetEvSettings]
  · norm_num +decide [Alerts.specNetevUsd, Alerts.chain_min_usd_profit,
      Alerts.defaultNetEvSettings]
  · norm_num +decide [Alerts.specNetevUsd, Alerts.chain_min_roi,
      Alerts.defaultNetEvSettings]

/-- **C1 (amended).** NetEV gate decision: the gate fails with reason
`missing_trade_size_usd` when `usd_value` is null or ≤ 0; otherwise, with
`size_usd = usd_value`, `expected_move` the clamped derived average (or the
chain constant when no valid outcomes exist) and `slippage` resolved from
`components.estimated_slippage` (default 0.02), it computes
`netev_usd = size_usd·expected_move − gas_cost_usd − size_usd·max(slippage, 0)`
and `netev_roi = netev_usd / size_usd`, and passes exactly when
`netev_usd ≥ min_usd_profit(chain)` and `netev_roi ≥ min_roi(chain)`. -/
theorem netev_gate_amended (cfg : Alerts.NetEvSettings) (chain : String)
    (usd avg slip : Option ℚ) (gas : ℚ) :
    (usd.getD 0 ≤ 0 →
      Alerts.netev_gate cfg chain usd avg slip gas = .missingSize) ∧
    (∀ s, usd = some s → 0 < s →
      ∃ N R passed,
        Alerts.netev_gate cfg chain usd avg slip gas = .evaluated N R passed ∧
        N = Alerts.specNetevUsd s
              ((Alerts.derived_expected_move avg).getD
                (Alerts.chain_expected_move cfg chain))
              gas
              (max 0 ((match slip with
                       | none => cfg.default_slippage
                       | some v => if v = 0 then cfg.default_slippage else v))) ∧
        R = N / s ∧
        (passed = true ↔
          Alerts.chain_min_usd_profit cfg chain ≤ N ∧
          Alerts.chain_min_roi cfg chain ≤ R)) := by
  constructor
  · intro hle
    unfold Alerts.netev_gate
    rw [if_pos hle]
  · intro s hs hpos
    subst hs
    have hnle : ¬ (some s : Option ℚ).getD 0 ≤ 0 := not_le_of_lt hpos
    refine
      ⟨Alerts.specNetevUsd s
          ((Alerts.derived_expected_move avg).getD
            (Alerts.chain_expected_move cfg chain))
          gas
          (max 0 ((match slip with
                   | none => cfg.default_slippage
                   | some v => if v = 0 then cfg.default_slippage else v))),
        Alerts.specNetevUsd s
          ((Alerts.derived_expected_move avg).getD
            (Alerts.chain_expected_move cfg chain))
          gas
          (max 0 ((match slip with
                   | none => cfg.default_slippage
                   | some v => if v = 0 then cfg.default_slippage else v))) / s,
        decide (Alerts.chain_min_usd_profit cfg chain ≤
          Alerts.specNetevUsd s
            ((Alerts.derived_expected_move avg).getD
              (Alerts.chain_expected_move cfg chain))
            gas
            (max 0 ((match slip with
                     | none => cfg.default_slippage
                     | some v => if v = 0 then cfg.default_slippage else v)))) &&
        decide (Alerts.chain_min_roi cfg chain ≤
          Alerts.specNetevUsd s
            ((Alerts.derived_expected_move avg).getD
              (Alerts.chain_expected_move cfg chain))
            gas
            (max 0 ((match slip with
                     | none => cfg.default_slippage
                     | some v => if v = 0 then cfg.default_slippage else v))) / s),
        ?_, rfl, rfl, ?_⟩
    · unfold Alerts.netev_gate
      rw [if_neg hnle]
      rfl
    · simp only [Bool.and_eq_true, decide_eq_true_eq]

/-- Witness for the amended C1: the spec's "NetEV pass" scenario — trade of
$500 on ETH, gas $5, default move 0.08 and slippage 0.02, thresholds
$20 / 5% ROI — passes with `netev_usd = 25` and `netev_roi = 0.05`. -/
theorem netev_gate_amended_witness :
    ∃ N R passed,
      Alerts.netev_gate
        { Alerts.defaultNetEvSettings with min_roi_eth := 5/100 }
        "ethereum" (some 500) none none 5 = .evaluated N R passed ∧
      N = Alerts.specNetevUsd 500
            ((Alerts.derived_expected_move none).getD
              (Alerts.chain_expected_move
                { Alerts.defaultNetEvSettings with min_roi_eth := 5/100 }
                "ethereum"))
            5
            (max 0 ((match (none : Option ℚ) with
                     | none =>
                       ({ Alerts.defaultNetEvSettings with
                          min_roi_eth := 5/100 }).default_slippage
                     | some v =>
                       if v = 0 then
                         ({ Alerts.defaultNetEvSettings with
                            min_roi_eth := 5/100 }).default_slippage
                       else v))) ∧
      R = N / 500 ∧
      (passed = true ↔
        Alerts.chain_min_usd_profit
          { Alerts.defaultNetEvSettings with min_roi_eth := 5/100 }
          "ethereum" ≤ N ∧
        Alerts.chain_min_roi
          { Alerts.defaultNetEvSettings with min_roi_eth := 5/100 }
          "ethereum" ≤ R) :=
  (netev_gate_amended { Alerts.defaultNetEvSettings with min_roi_eth := 5/100 }
    "ethereum" (some 500) none none 5).2 500 rfl (by norm_num)

/-- **C5 (counterexample).** An ignored wallet can still receive an alert:
a buy trade on an active watch pair whose wallet is ignored (metric
present, no cooldown) makes the scan emit a `pool_activity` alert for that
wallet. -/
theorem ignored_wallet_pool_alert_cex :
    (Alerts.TradeCtx.mk true true true true (some 5) true true false
        true).ignored = true ∧
    Alerts.alerts_decision
        (Alerts.TradeCtx.mk true true true true (some 5) true true false
          true) = some .pool_activity := by
  constructor
  · rfl
  · decide

/-- **C5 (amended).** Ignored-wallet invariant, as the code enforces it:
an ignored wallet never receives a `trade_conviction` alert from the
alerts worker's scan (though it can still receive a `pool_activity`
alert on an active watch pair), and the profiler skips it before writing
any `Position` or `WalletMetric` row. -/
theorem ignored_wallet_amended (c : Alerts.TradeCtx) (hc : c.ignored = true)
    (positions : List (String × Profiler.PositionState)) :
    Alerts.alerts_decision c ≠ some .trade_conviction ∧
    Profiler.wallet_refresh_writes true positions = none := by
  refine ⟨?_, rfl⟩
  unfold Alerts.alerts_decision
  simp only [hc]
  split_ifs <;> simp_all

/-- Witness for the amended C5 at the counterexample context. -/
theorem ignored_wallet_amended_witness :
    Alerts.alerts_decision
        (Alerts.TradeCtx.mk true true true true (some 5) true true false
          true) ≠ some .trade_conviction ∧
    Profiler.wallet_refresh_writes true [("0xtoken", ⟨1, some 2⟩)] = none :=
  ignored_wallet_amended
    (Alerts.TradeCtx.mk true true true true (some 5) true true false true)
    rfl [("0xtoken", ⟨1, some 2⟩)]

end AlertsClaims

section AutopilotClaims

lemma excess_key_source (now : ℚ) (cap : ℕ) (rows : List Autopilot.WatchPairRow)
    (k : String) (hk : k ∈ Autopilot.excessKeys now cap rows) :
    ∃ e ∈ rows, e.pair_address = k ∧ e.source = "autopilot" := by
  unfold Autopilot.excessKeys at hk
  rcases List.mem_map.mp hk with ⟨e, he, hek⟩
  have he1 : e ∈ (rows.filter (Autopilot.isActiveAutopilot now)).insertionSort
      Autopilot.churnOrder := List.mem_of_mem_drop he
  have he2 : e ∈ rows.filter (Autopilot.isActiveAutopilot now) :=
    (List.perm_insertionSort _ _).mem_iff.mp he1
  rcases List.mem_filter.mp he2 with ⟨he3, hp⟩
  refine ⟨e, he3, hek, ?_⟩
  unfold Autopilot.isActiveAutopilot at hp
  rw [Bool.and_eq_true] at hp
  exact eq_of_beq hp.1

lemma seed_key_not_excess (now : ℚ) (cap : ℕ) (rows : List Autopilot.WatchPairRow)
    (hkeys : (rows.map (·.pair_address)).Nodup)
    (r : Autopilot.WatchPairRow) (hr : r ∈ rows) (hsrc : r.source = "seed_pack") :
    r.pair_address ∉ Autopilot.excessKeys now cap rows := by
  intro hk
  rcases excess_key_source now cap rows _ hk with ⟨e, he, hek, hesrc⟩
  have heq : e = r := List.inj_on_of_nodup_map hkeys he hr hek
  rw [heq, hsrc] at hesrc
  exact absurd hesrc (by decide)

lemma demoted_inactive (now : ℚ) (keys : List String)
    (r : Autopilot.WatchPairRow) (hc : keys.contains r.pair_address = true) :
    Autopilot.isActiveAutopilot now (Autopilot.churnStep now keys r) = false := by
  unfold Autopilot.churnStep
  rw [if_pos hc]
  unfold Autopilot.isActiveAutopilot Autopilot.isActive
  simp [lt_irrefl]

lemma churnStep_id (now : ℚ) (keys : List String)
    (r : Autopilot.WatchPairRow) (hc : ¬ keys.contains r.pair_address = true) :
    Autopilot.churnStep now keys r = r := by
  unfold Autopilot.churnStep
  rw [if_neg hc]

/-- **C6 (counterexample).** One churn pass does not reduce the set of
active pairs of a chain to the cap: with cap 1 and three active pairs
(one seed-pack anchor, two autopilot pairs), churn demotes only the excess
autopilot pair, leaving 2 active pairs — the claimed bound
`activeCount ≤ cap` fails. -/
theorem autopilot_churn_active_cap_cex :
    ¬ Autopilot.activeCount 0
        (Autopilot.churn 0 1
          [⟨"s", "seed_pack", 5, 10, 0⟩, ⟨"a", "autopilot", 3, 10, 0⟩,
           ⟨"b", "autopilot", 2, 10, 0⟩]) ≤ 1 ∧
    (([⟨"s", "seed_pack", 5, 10, 0⟩, ⟨"a", "autopilot", 3, 10, 0⟩,
       ⟨"b", "autopilot", 2, 10, 0⟩] :
        List Autopilot.WatchPairRow).map (·.pair_address)).Nodup := by
  constructor
  · decide
  · decide

/-- **C6 (amended).** Autopilot churn: after one churn pass over a chain,
every seed-pack `WatchPair` keeps its `expires_at` and `priority`
unchanged (it is never expired or demoted, even when over the cap), the
set of **active autopilot-source pairs** for the chain is reduced to at
most `autopilot_max_pairs_per_chain`, and each demoted excess pair gets
`expires_at` forced to `now` and `priority` to 0. -/
theorem autopilot_churn_amended (now : ℚ) (cap : ℕ)
    (rows : List Autopilot.WatchPairRow)
    (hkeys : (rows.map (·.pair_address)).Nodup)
    (hprio : ∀ r ∈ rows, 0 ≤ r.priority) :
    (∀ i (hi : i < rows.length), (rows.get ⟨i, hi⟩).source = "seed_pack" →
      (Autopilot.churn now cap rows)[i]? = some (rows.get ⟨i, hi⟩)) ∧
    Autopilot.activeAutopilotCount now (Autopilot.churn now cap rows) ≤ cap ∧
    (∀ r ∈ rows, r.pair_address ∈ Autopilot.excessKeys now cap rows →
      (Autopilot.churnStep now (Autopilot.excessKeys now cap rows) r).expires_at
          = now ∧
      (Autopilot.churnStep now (Autopilot.excessKeys now cap rows) r).priority
          = 0) := by
  refine ⟨?_, ?_, ?_⟩
  · intro i hi hseed
    unfold Autopilot.churn
    rw [List.getElem?_map, List.getElem?_eq_getElem hi]
    have hget : rows[i] = rows.get ⟨i, hi⟩ := rfl
    have hnot : ¬ (Autopilot.excessKeys now cap rows).contains
        (rows.get ⟨i, hi⟩).pair_address = true := by
      intro hc
      exact seed_key_not_excess now cap rows hkeys _
        (List.get_mem rows i hi) hseed (List.elem_iff.mp hc)
    rw [Option.map_some', hget, churnStep_id now _ _ hnot]
  · unfold Autopilot.activeAutopilotCount Autopilot.churn
    rw [← List.countP_eq_length_filter, List.countP_map]
    have hcongr : ∀ r ∈ rows,
        ((Autopilot.isActiveAutopilot now) ∘
          (Autopilot.churnStep now (Autopilot.excessKeys now cap rows))) r = true ↔
        ((! (Autopilot.excessKeys now cap rows).contains r.pair_address) &&
          Autopilot.isActiveAutopilot now r) = true := by
      intro r _
      by_cases hc : (Autopilot.excessKeys now cap rows).contains r.pair_address = true
      · simp only [Function.comp_apply, demoted_inactive now _ r hc, hc,
          Bool.not_true, Bool.false_and]
      · have hcf : (Autopilot.excessKeys now cap rows).contains r.pair_address
            = false := by
          cases h : (Autopilot.excessKeys now cap rows).contains r.pair_address
          · rfl
          · exact absurd h hc
        simp only [Function.comp_apply, churnStep_id now _ r hc, hcf,
          Bool.not_false, Bool.true_and]
    rw [List.countP_congr hcongr]
    have hfilter := List.countP_filter
      (fun r : Autopilot.WatchPairRow =>
        ! (Autopilot.excessKeys now cap rows).contains r.pair_address)
      (Autopilot.isActiveAutopilot now) rows
    rw [← hfilter]
    have hperm := (List.perm_insertionSort Autopilot.churnOrder
      (rows.filter (Autopilot.isActiveAutopilot now))).symm
    rw [hperm.countP_eq]
    set sorted := (rows.filter (Autopilot.isActiveAutopilot now)).insertionSort
      Autopilot.churnOrder with hsorted
    have hsplit := List.take_append_drop cap sorted
    conv_lhs => rw [← hsplit]
    rw [List.countP_append]
    have hdrop : List.countP
        (fun r : Autopilot.WatchPairRow =>
          ! (Autopilot.excessKeys now cap rows).contains r.pair_address)
        (sorted.drop cap) = 0 := by
      rw [List.countP_eq_zero]
      intro e hedrop
      have hmem : e.pair_address ∈ Autopilot.excessKeys now cap rows :=
        List.mem_map_of_mem (·.pair_address) hedrop
      have hc : (Autopilot.excessKeys now cap rows).contains e.pair_address
          = true := List.elem_iff.mpr hmem
      rw [hc]
      decide
    rw [hdrop, Nat.add_zero]
    exact le_trans (List.countP_le_length _) (List.length_take_le cap sorted)
  · intro r hr hk
    unfold Autopilot.churnStep
    rw [if_pos (List.elem_iff.mpr hk)]
    refine ⟨rfl, ?_⟩
    exact min_eq_right (hprio r hr)

/-- Witness for the amended C6 at the counterexample state: the active
autopilot set is reduced to the cap of 1. -/
theorem autopilot_churn_amended_witness :
    Autopilot.activeAutopilotCount 0
        (Autopilot.churn 0 1
          [⟨"s", "seed_pack", 5, 10, 0⟩, ⟨"a", "autopilot", 3, 10, 0⟩,
           ⟨"b", "autopilot", 2, 10, 0⟩]) ≤ 1 :=
  (autopilot_churn_amended 0 1
    [⟨"s", "seed_pack", 5, 10, 0⟩, ⟨"a", "autopilot", 3, 10, 0⟩,
     ⟨"b", "autopilot", 2, 10, 0⟩]
    (by decide) (by decide)).2.1

end AutopilotClaims

section OutcomeClaims

lemma peakStep_not_feasible (parsed : List (ℚ × Bool)) (entry : ℚ)
    (acc : Option ℚ × Option ℚ) (pr : ℚ × ℚ)
    (h : OutcomeEval.nearestFeasible parsed pr.1 = false) :
    OutcomeEval.peakStep parsed entry acc pr = acc := by
  unfold OutcomeEval.nearestFeasible at h
  unfold OutcomeEval.peakStep
  by_cases hc : OutcomeEval.bisectRight (parsed.map Prod.fst) pr.1 = 0
  · rw [if_pos hc]
  · rw [if_neg hc] at h ⊢
    cases hg : parsed[OutcomeEval.bisectRight (parsed.map Prod.fst) pr.1 - 1]? with
    | none => rfl
    | some p =>
        obtain ⟨tt, f⟩ := p
        rw [hg] at h
        simp at h
        simp [h]

lemma peakStep_feasible_none (parsed : List (ℚ × Bool)) (entry : ℚ)
    (acc : Option ℚ × Option ℚ) (pr : ℚ × ℚ)
    (h : OutcomeEval.nearestFeasible parsed pr.1 = true) (ha : acc.1 = none) :
    OutcomeEval.peakStep parsed entry acc pr =
      (some (pr.2 / entry - 1), some pr.1) := by
  unfold OutcomeEval.nearestFeasible at h
  unfold OutcomeEval.peakStep
  by_cases hc : OutcomeEval.bisectRight (parsed.map Prod.fst) pr.1 = 0
  · rw [if_pos hc] at h
    cases h
  · rw [if_neg hc] at h ⊢
    cases hg : parsed[OutcomeEval.bisectRight (parsed.map Prod.fst) pr.1 - 1]? with
    | none => rw [hg] at h; cases h
    | some p =>
        obtain ⟨tt, f⟩ := p
        rw [hg] at h
        simp at h
        simp [h, ha]

lemma peakStep_feasible_some (parsed : List (ℚ × Bool)) (entry : ℚ)
    (acc : Option ℚ × Option ℚ) (pr : ℚ × ℚ) (g0 : ℚ)
    (h : OutcomeEval.nearestFeasible parsed pr.1 = true) (ha : acc.1 = some g0) :
    OutcomeEval.peakStep parsed entry acc pr =
      (if g0 < pr.2 / entry - 1 then (some (pr.2 / entry - 1), some pr.1)
       else acc) := by
  unfold OutcomeEval.nearestFeasible at h
  unfold OutcomeEval.peakStep
  by_cases hc : OutcomeEval.bisectRight (parsed.map Prod.fst) pr.1 = 0
  · rw [if_pos hc] at h
    cases h
  · rw [if_neg hc] at h ⊢
    cases hg : parsed[OutcomeEval.bisectRight (parsed.map Prod.fst) pr.1 - 1]? with
    | none => rw [hg] at h; cases h
    | some p =>
        obtain ⟨tt, f⟩ := p
        rw [hg] at h
        simp at h
        simp [h, ha]

lemma peak_fold_spec (parsed : List (ℚ × Bool)) (entry : ℚ)
    (prices : List (ℚ × ℚ)) :
    ∀ acc : Option ℚ × Option ℚ,
      ((prices.foldl (OutcomeEval.peakStep parsed entry) acc).1 = none ↔
        acc.1 = none ∧
        ∀ pr ∈ prices, OutcomeEval.nearestFeasible parsed pr.1 = false) ∧
      (∀ g, (prices.foldl (OutcomeEval.peakStep parsed entry) acc).1 = some g →
        (acc.1 = some g ∨ ∃ pr ∈ prices,
            OutcomeEval.nearestFeasible parsed pr.1 = true ∧
            g = pr.2 / entry - 1) ∧
        (∀ g0, acc.1 = some g0 → g0 ≤ g) ∧
        (∀ pr ∈ prices, OutcomeEval.nearestFeasible parsed pr.1 = true →
          pr.2 / entry - 1 ≤ g)) := by
  induction prices with
  | nil =>
      intro acc
      constructor
      · simp
      · intro g hg
        simp only [List.foldl_nil] at hg
        refine ⟨Or.inl hg, ?_, by simp⟩
        intro g0 h0
        rw [hg] at h0
        injection h0 with h0
        exact le_of_eq h0.symm
  | cons pr rest ih =>
      intro acc
      rw [List.foldl_cons]
      cases hnf : OutcomeEval.nearestFeasible parsed pr.1 with
      | false =>
          rw [peakStep_not_feasible parsed entry acc pr hnf]
          obtain ⟨ih1, ih2⟩ := ih acc
          constructor
          · rw [ih1]
            constructor
            · rintro ⟨h1, h2⟩
              refine ⟨h1, ?_⟩
              intro x hx
              rcases List.mem_cons.mp hx with hx | hx
              · subst hx; exact hnf
              · exact h2 x hx
            · rintro ⟨h1, h2⟩
              exact ⟨h1, fun x hx => h2 x (List.mem_cons_of_mem pr hx)⟩
          · intro g hg
            obtain ⟨hA, hB, hC⟩ := ih2 g hg
            refine ⟨?_, hB, ?_⟩
            · rcases hA with h | ⟨x, hx, hfx, hgx⟩
              · exact Or.inl h
              · exact Or.inr ⟨x, List.mem_cons_of_mem pr hx, hfx, hgx⟩
            · intro x hx hfx
              rcases List.mem_cons.mp hx with rfl | hx'
              · simp [hnf] at hfx
              · exact hC x hx' hfx
      | true =>
          cases ha : acc.1 with
          | none =>
              rw [peakStep_feasible_none parsed entry acc pr hnf ha]
              obtain ⟨ih1, ih2⟩ := ih (some (pr.2 / entry - 1), some pr.1)
              constructor
              · rw [ih1]
                constructor
                · rintro ⟨h, _⟩
                  cases h
                · rintro ⟨_, h2⟩
                  have := h2 pr (List.mem_cons_self pr rest)
                  simp [hnf] at this
              · intro g hg
                obtain ⟨hA, hB, hC⟩ := ih2 g hg
                refine ⟨?_, ?_, ?_⟩
                · rcases hA with h | ⟨x, hx, hfx, hgx⟩
                  · refine Or.inr ⟨pr, List.mem_cons_self pr rest, hnf, ?_⟩
                    injection h with h'
                    exact h'.symm
                  · exact Or.inr ⟨x, List.mem_cons_of_mem pr hx, hfx, hgx⟩
                · intro g0 h0
                  cases h0
                · intro x hx hfx
                  rcases List.mem_cons.mp hx with rfl | hx'
                  · exact hB _ rfl
                  · exact hC x hx' hfx
          | some g0 =>
              rw [peakStep_feasible_some parsed entry acc pr g0 hnf ha]
              by_cases hlt : g0 < pr.2 / entry - 1
              · rw [if_pos hlt]
                obtain ⟨ih1, ih2⟩ := ih (some (pr.2 / entry - 1), some pr.1)
                constructor
                · rw [ih1]
                  constructor
                  · rintro ⟨h, _⟩
                    cases h
                  · rintro ⟨h1, _⟩
                    cases h1
                · intro g hg
                  obtain ⟨hA, hB, hC⟩ := ih2 g hg
                  refine ⟨?_, ?_, ?_⟩
                  · rcases hA with h | ⟨x, hx, hfx, hgx⟩
                    · refine Or.inr ⟨pr, List.mem_cons_self pr rest, hnf, ?_⟩
                      injection h with h'
                      exact h'.symm
                    · exact Or.inr ⟨x, List.mem_cons_of_mem pr hx, hfx, hgx⟩
                  · intro g1 h1
                    injection h1 with h1
                    subst h1
                    exact le_trans (le_of_lt hlt) (hB _ rfl)
                  · intro x hx hfx
                    rcases List.mem_cons.mp hx with rfl | hx'
                    · exact hB _ rfl
                    · exact hC x hx' hfx
              · rw [if_neg hlt]
                obtain ⟨ih1, ih2⟩ := ih acc
                constructor
                · rw [ih1]
                  constructor
                  · rintro ⟨h, _⟩
                    rw [ha] at h
                    cases h
                  · rintro ⟨h, _⟩
                    cases h
                · intro g hg
                  obtain ⟨hA, hB, hC⟩ := ih2 g hg
                  refine ⟨?_, fun g1 h1 => hB g1 (ha.trans h1), ?_⟩
                  · rcases hA with h | ⟨x, hx, hfx, hgx⟩
                    · exact Or.inl (ha.symm.trans h)
                    · exact Or.inr ⟨x, List.mem_cons_of_mem pr hx, hfx, hgx⟩
                  · intro x hx hfx
                    rcases List.mem_cons.mp hx with rfl | hx'
                    · exact le_trans (not_lt.mp hlt) (hB g0 ha)
                    · exact hC x hx' hfx

lemma bisectRight_eq_countP (l : List (ℚ × Bool)) (t : ℚ) :
    OutcomeEval.bisectRight (l.map Prod.fst) t =
      l.countP (fun x => decide (x.1 ≤ t)) := by
  unfold OutcomeEval.bisectRight
  rw [List.countP_map]
  rfl

lemma nearest_index_spec (l : List (ℚ × Bool)) :
    ∀ t c, l.Pairwise (fun a b => a.1 < b.1) →
      l.countP (fun x => decide (x.1 ≤ t)) = c + 1 →
      ∃ hc : c < l.length,
        (l.get ⟨c, hc⟩).1 ≤ t ∧
        ∀ x ∈ l, x.1 ≤ t → x.1 ≤ (l.get ⟨c, hc⟩).1 := by
  induction l with
  | nil =>
      intro t c _ hc
      simp at hc
  | cons x xs ih =>
      intro t c hl hc
      rw [List.countP_cons] at hc
      rcases List.pairwise_cons.mp hl with ⟨hhead, htail⟩
      by_cases hx : x.1 ≤ t
      · have hd : decide (x.1 ≤ t) = true := decide_eq_true hx
        rw [hd, if_pos rfl] at hc
        have hxs : xs.countP (fun y => decide (y.1 ≤ t)) = c := by omega
        cases c with
        | zero =>
            refine ⟨by simp, hx, ?_⟩
            intro y hy hyt
            rcases List.mem_cons.mp hy with rfl | hy'
            · exact le_refl _
            · exfalso
              have := List.countP_eq_zero.mp hxs y hy'
              simp [hyt] at this
        | succ c' =>
            obtain ⟨hc', h1, h2⟩ := ih t c' htail hxs
            have hlen : c' + 1 < (x :: xs).length := by
              simpa using Nat.succ_lt_succ hc'
            refine ⟨hlen, h1, ?_⟩
            intro y hy hyt
            rcases List.mem_cons.mp hy with rfl | hy'
            · have hmem := List.get_mem xs c' hc'
              exact le_of_lt (hhead _ hmem)
            · exact h2 y hy' hyt
      · exfalso
        have hzero : xs.countP (fun y => decide (y.1 ≤ t)) = 0 := by
          rw [List.countP_eq_zero]
          intro y hy
          simp only [decide_eq_true_eq]
          intro hyt
          exact hx (le_trans (le_of_lt (hhead y hy)) hyt)
        have hd : decide (x.1 ≤ t) = false := decide_eq_false hx
        rw [hd, hzero] at hc
        simp at hc

lemma parsed_times (snaps : List OutcomeEval.Snapshot) :
    (OutcomeEval.parsedSnapshots snaps).map Prod.fst =
      snaps.filterMap (·.time) := by
  induction snaps with
  | nil => rfl
  | cons s rest ih =>
      unfold OutcomeEval.parsedSnapshots at ih ⊢
      cases hs : s.time with
      | none => simp [List.filterMap_cons, hs, ih]
      | some ts => simp [List.filterMap_cons, hs, ih]

lemma mem_parsedSnapshots (snaps : List OutcomeEval.Snapshot) (p : ℚ × Bool) :
    p ∈ OutcomeEval.parsedSnapshots snaps ↔
      ∃ s ∈ snaps, s.time = some p.1 ∧
        OutcomeEval.is_exit_feasible_snapshot s = p.2 := by
  unfold OutcomeEval.parsedSnapshots
  rw [List.mem_filterMap]
  constructor
  · rintro ⟨s, hs, hmap⟩
    rcases Option.map_eq_some'.mp hmap with ⟨ts, hts, heq⟩
    subst heq
    exact ⟨s, hs, hts, rfl⟩
  · rintro ⟨s, hs, ht, hf⟩
    refine ⟨s, hs, ?_⟩
    rw [ht, Option.map_some']
    exact congrArg some (Prod.ext rfl hf)

lemma sortedParsed_pairwise_lt (snaps : List OutcomeEval.Snapshot)
    (hdist : (snaps.filterMap (·.time)).Nodup) :
    ((OutcomeEval.parsedSnapshots snaps).insertionSort
        OutcomeEval.parsedLe).Pairwise (fun a b => a.1 < b.1) := by
  have hsorted : ((OutcomeEval.parsedSnapshots snaps).insertionSort
      OutcomeEval.parsedLe).Sorted OutcomeEval.parsedLe :=
    List.sorted_insertionSort _ _
  have hperm := List.perm_insertionSort OutcomeEval.parsedLe
    (OutcomeEval.parsedSnapshots snaps)
  have hnodup0 : ((OutcomeEval.parsedSnapshots snaps).map Prod.fst).Nodup := by
    rw [parsed_times snaps]
    exact hdist
  have hnodup : (((OutcomeEval.parsedSnapshots snaps).insertionSort
      OutcomeEval.parsedLe).map Prod.fst).Nodup :=
    (hperm.map Prod.fst).nodup_iff.mpr hnodup0
  have hne : ((OutcomeEval.parsedSnapshots snaps).insertionSort
      OutcomeEval.parsedLe).Pairwise (fun a b => a.1 ≠ b.1) :=
    List.pairwise_map.mp hnodup
  refine (hsorted.and hne).imp ?_
  rintro a b ⟨hle, hab⟩
  rcases hle with h | ⟨h, _⟩
  · exact h
  · exact absurd h hab

lemma is_exit_feasible_iff (s : OutcomeEval.Snapshot) :
    OutcomeEval.is_exit_feasible_snapshot s = true ↔
      OutcomeEval.SpecFeasibleSnapshot s := by
  unfold OutcomeEval.is_exit_feasible_snapshot OutcomeEval.SpecFeasibleSnapshot
  cases hms : OutcomeEval.snapshot_max_size s with
  | none => simp
  | some m =>
      dsimp only
      by_cases hm : m < 1000
      · rw [if_pos hm]
        constructor
        · intro h; cases h
        · rintro ⟨_, m', hm', hle⟩
          injection hm' with hm''
          subst hm''
          exact absurd hm (not_lt.mpr hle)
      · rw [if_neg hm]
        constructor
        · intro h
          exact ⟨h, m, rfl, not_lt.mp hm⟩
        · rintro ⟨h, _⟩
          exact h

lemma nearestFeasible_iff (snaps : List OutcomeEval.Snapshot)
    (hdist : (snaps.filterMap (·.time)).Nodup) (t : ℚ) :
    OutcomeEval.nearestFeasible
        ((OutcomeEval.parsedSnapshots snaps).insertionSort OutcomeEval.parsedLe)
        t = true ↔
      OutcomeEval.SpecNearestFeasible snaps t := by
  have hpw := sortedParsed_pairwise_lt snaps hdist
  have hperm := List.perm_insertionSort OutcomeEval.parsedLe
    (OutcomeEval.parsedSnapshots snaps)
  unfold OutcomeEval.nearestFeasible
  rw [bisectRight_eq_countP]
  cases hc : ((OutcomeEval.parsedSnapshots snaps).insertionSort
      OutcomeEval.parsedLe).countP (fun x => decide (x.1 ≤ t)) with
  | zero =>
      rw [if_pos rfl]
      constructor
      · intro h
        cases h
      · rintro ⟨s, hs, ts, hts, hle, _, _⟩
        exfalso
        have hmem : ((ts, OutcomeEval.is_exit_feasible_snapshot s) : ℚ × Bool) ∈
            OutcomeEval.parsedSnapshots snaps :=
          (mem_parsedSnapshots snaps _).mpr ⟨s, hs, hts, rfl⟩
        have hmemL := hperm.mem_iff.mpr hmem
        have := List.countP_eq_zero.mp hc _ hmemL
        simp [hle] at this
  | succ c =>
      obtain ⟨hlt, h1, h2⟩ := nearest_index_spec
        ((OutcomeEval.parsedSnapshots snaps).insertionSort OutcomeEval.parsedLe)
        t c hpw hc
      rw [if_neg (Nat.succ_ne_zero c), Nat.add_sub_cancel,
        List.getElem?_eq_getElem hlt]
      rcases hE : ((OutcomeEval.parsedSnapshots snaps).insertionSort
          OutcomeEval.parsedLe).get ⟨c, hlt⟩ with ⟨te, fe⟩
      rw [hE] at h1 h2
      have hgetE : ((OutcomeEval.parsedSnapshots snaps).insertionSort
          OutcomeEval.parsedLe)[c] = (te, fe) := hE
      rw [hgetE]
      dsimp only
      have hmemL : ((te, fe) : ℚ × Bool) ∈
          (OutcomeEval.parsedSnapshots snaps).insertionSort OutcomeEval.parsedLe := by
        rw [← hE]
        exact List.get_mem _ c hlt
      obtain ⟨se, hse, hsete, hsefe⟩ :=
        (mem_parsedSnapshots snaps _).mp (hperm.mem_iff.mp hmemL)
      constructor
      · intro hfe
        refine ⟨se, hse, te, hsete, h1, ?_, ?_⟩
        · intro s' hs' ts' hts' hle'
          have hmem' : ((ts', OutcomeEval.is_exit_feasible_snapshot s') : ℚ × Bool) ∈
              OutcomeEval.parsedSnapshots snaps :=
            (mem_parsedSnapshots snaps _).mpr ⟨s', hs', hts', rfl⟩
          exact h2 _ (hperm.mem_iff.mpr hmem') hle'
        · exact (is_exit_feasible_iff se).mp (hsefe.trans hfe)
      · rintro ⟨s0, hs0, ts0, hts0, hle0, hmax0, hfeas0⟩
        have hmem0' : ((ts0, OutcomeEval.is_exit_feasible_snapshot s0) : ℚ × Bool) ∈
            OutcomeEval.parsedSnapshots snaps :=
          (mem_parsedSnapshots snaps _).mpr ⟨s0, hs0, hts0, rfl⟩
        have hle_te : ts0 ≤ te := h2 _ (hperm.mem_iff.mpr hmem0') hle0
        have hte_le : te ≤ ts0 := hmax0 se hse te hsete h1
        have hnodup0 : ((OutcomeEval.parsedSnapshots snaps).map Prod.fst).Nodup := by
          rw [parsed_times snaps]
          exact hdist
        have hpair : ((ts0, OutcomeEval.is_exit_feasible_snapshot s0) : ℚ × Bool)
            = (te, fe) :=
          List.inj_on_of_nodup_map hnodup0 hmem0' (hperm.mem_iff.mp hmemL)
            (le_antisymm hle_te hte_le)
        have hfe' : OutcomeEval.is_exit_feasible_snapshot s0 = fe :=
          congrArg Prod.snd hpair
        rw [← hfe']
        exact (is_exit_feasible_iff s0).mpr hfeas0

/-- **C2.** Exit-feasible peak: for every non-empty price series with
positive entry price and every set of in-window risk snapshots (with
well-defined, i.e. pairwise-distinct, snapshot timestamps),
`exit_feasible_peak_gain` equals the maximum of `price/entry − 1` over
exactly those price samples whose nearest prior snapshot is sellable and
has `max_suggested_size_usd ≥ 1000`; and when no sample is exit-feasible,
both `tradeable_peak_gain` and `exit_feasible_peak_gain` are null and
`was_sellable_entire_window` is false. -/
theorem exit_feasible_peak_spec (prices : List (ℚ × ℚ))
    (snaps : List OutcomeEval.Snapshot) (entry : ℚ)
    (hp : prices ≠ []) (he : 0 < entry)
    (hdist : (snaps.filterMap (·.time)).Nodup) :
    OutcomeEval.ExitPeakSpec prices snaps entry
      (OutcomeEval.exit_feasible_peak prices snaps entry) ∧
    (∀ raw_peak sellable,
      (OutcomeEval.exit_feasible_peak prices snaps entry).1 = none →
      OutcomeEval.peaks_after_feasibility raw_peak sellable
        (OutcomeEval.exit_feasible_peak prices snaps entry) =
        (none, none, false)) := by
  have hperm := List.perm_insertionSort OutcomeEval.parsedLe
    (OutcomeEval.parsedSnapshots snaps)
  have hmain : OutcomeEval.ExitPeakSpec prices snaps entry
      (OutcomeEval.exit_feasible_peak prices snaps entry) := by
    by_cases hL : (OutcomeEval.parsedSnapshots snaps).insertionSort
        OutcomeEval.parsedLe = []
    · have hout : OutcomeEval.exit_feasible_peak prices snaps entry =
          (none, none, false) := by
        unfold OutcomeEval.exit_feasible_peak
        rw [if_neg hp, if_pos hL]
      rw [hout]
      refine ⟨?_, ?_, ?_⟩
      · intro g hg
        cases hg
      · rintro _ pr hpr ⟨s, hs, ts, hts, _, _, _⟩
        have hmem : ((ts, OutcomeEval.is_exit_feasible_snapshot s) : ℚ × Bool) ∈
            OutcomeEval.parsedSnapshots snaps :=
          (mem_parsedSnapshots snaps _).mpr ⟨s, hs, hts, rfl⟩
        have hmemL := hperm.mem_iff.mpr hmem
        rw [hL] at hmemL
        cases hmemL
      · intro _
        rfl
    · by_cases hany : ((OutcomeEval.parsedSnapshots snaps).insertionSort
          OutcomeEval.parsedLe).any (·.2) = true
      · -- at least one snapshot is exit-feasible: the fold runs
        obtain ⟨fold1, fold2⟩ := peak_fold_spec
          ((OutcomeEval.parsedSnapshots snaps).insertionSort OutcomeEval.parsedLe)
          entry prices (none, none)
        rcases hfold : prices.foldl
            (OutcomeEval.peakStep
              ((OutcomeEval.parsedSnapshots snaps).insertionSort
                OutcomeEval.parsedLe) entry)
            (none, none) with ⟨gOpt, mt⟩
        rw [hfold] at fold1 fold2
        cases gOpt with
        | none =>
            have hout : OutcomeEval.exit_feasible_peak prices snaps entry =
                (none, none, false) := by
              unfold OutcomeEval.exit_feasible_peak
              rw [if_neg hp, if_neg hL, if_neg (by simp [hany]), hfold]
            rw [hout]
            refine ⟨?_, ?_, ?_⟩
            · intro g hg
              cases hg
            · intro _ pr hpr hspec
              obtain ⟨_, hall⟩ := fold1.mp rfl
              have := hall pr hpr
              rw [(nearestFeasible_iff snaps hdist pr.1).mpr hspec] at this
              cases this
            · intro _
              rfl
        | some g =>
            have hout : OutcomeEval.exit_feasible_peak prices snaps entry =
                (some g, mt,
                  (OutcomeEval.parsedSnapshots snaps).all (·.2)) := by
              unfold OutcomeEval.exit_feasible_peak
              rw [if_neg hp, if_neg hL, if_neg (by simp [hany]), hfold]
            rw [hout]
            refine ⟨?_, ?_, ?_⟩
            · intro g' hg'
              injection hg' with hg'
              subst hg'
              obtain ⟨hA, _, hC⟩ := fold2 g rfl
              constructor
              · rcases hA with h | ⟨pr, hpr, hf, hgx⟩
                · cases h
                · exact ⟨pr, hpr,
                    (nearestFeasible_iff snaps hdist pr.1).mp hf, hgx⟩
              · intro pr hpr hspec
                exact hC pr hpr
                  ((nearestFeasible_iff snaps hdist pr.1).mpr hspec)
            · intro h
              cases h
            · intro h
              cases h
      · -- no parsed snapshot is exit-feasible
        have hnot : (! ((OutcomeEval.parsedSnapshots snaps).insertionSort
            OutcomeEval.parsedLe).any (·.2)) = true := by
          simp only [Bool.not_eq_true'] at hany ⊢
          exact Bool.eq_false_iff.mpr fun h => hany h
        have hout : OutcomeEval.exit_feasible_peak prices snaps entry =
            (none, none, false) := by
          unfold OutcomeEval.exit_feasible_peak
          rw [if_neg hp, if_neg hL, if_pos hnot]
        rw [hout]
        refine ⟨?_, ?_, ?_⟩
        · intro g hg
          cases hg
        · rintro _ pr hpr ⟨s, hs, ts, hts, _, _, hfeas⟩
          have hfs : OutcomeEval.is_exit_feasible_snapshot s = true :=
            (is_exit_feasible_iff s).mpr hfeas
          have hmem : ((ts, OutcomeEval.is_exit_feasible_snapshot s) : ℚ × Bool) ∈
              OutcomeEval.parsedSnapshots snaps :=
            (mem_parsedSnapshots snaps _).mpr ⟨s, hs, hts, rfl⟩
          have hmemL := hperm.mem_iff.mpr hmem
          have : ((OutcomeEval.parsedSnapshots snaps).insertionSort
              OutcomeEval.parsedLe).any (·.2) = true :=
            List.any_eq_true.mpr ⟨_, hmemL, hfs⟩
          exact hany this
        · intro _
          rfl
  refine ⟨hmain, ?_⟩
  intro raw_peak sellable hnone
  unfold OutcomeEval.peaks_after_feasibility
  rw [hnone]

/-- Witness for C2 at the spec's "exit-feasible peak suppresses trap"
scenario: prices 1.05, 1.60, 1.80, 1.20 with entry 1.0 and only the first
snapshot exit-feasible. -/
theorem exit_feasible_peak_spec_witness :
    OutcomeEval.ExitPeakSpec examplePrices exampleSnapshots 1
      (OutcomeEval.exit_feasible_peak examplePrices exampleSnapshots 1) ∧
    (∀ raw_peak sellable,
      (OutcomeEval.exit_feasible_peak examplePrices exampleSnapshots 1).1 =
        none →
      OutcomeEval.peaks_after_feasibility raw_peak sellable
        (OutcomeEval.exit_feasible_peak examplePrices exampleSnapshots 1) =
        (none, none, false)) :=
  exit_feasible_peak_spec examplePrices exampleSnapshots 1
    (by simp [examplePrices]) (by norm_num) (by decide)

end OutcomeClaims

